import Mathlib

/-!
Verification of the vaman-ai gateway core against its design document.

Each definition shallowly embeds one piece of the TypeScript source
(`packages/gateway/src`): pure functions become Lean functions, stateful
code becomes explicit state passing, external effects (the filesystem,
`JSON.parse`, the FTS engine, the agent runtime) become explicit oracle
parameters or event traces.  JavaScript strings are embedded as `List Char`
where character-level reasoning is needed.  Theorems at the end settle the
design document's testable properties against these embeddings.
-/

namespace VamanAI

/-! ## HeartbeatRunner.isActiveHours (heartbeat.ts:122-140)

The source computes `startMinutes`, `endMinutes` and `currentMinutes` as
minutes-of-day and then branches:

    if (startMinutes === endMinutes) return true;
    if (startMinutes < endMinutes) {
      return currentMinutes >= startMinutes && currentMinutes < endMinutes;
    }
    return currentMinutes >= startMinutes || currentMinutes < endMinutes;
-/

def isActiveHours (startMinutes endMinutes currentMinutes : Nat) : Bool :=
  if startMinutes = endMinutes then true
  else if startMinutes < endMinutes then
    decide (currentMinutes ≥ startMinutes) && decide (currentMinutes < endMinutes)
  else
    decide (currentMinutes ≥ startMinutes) || decide (currentMinutes < endMinutes)

/-! ## SessionBufferManager (state/session-buffer.ts)

`append` pushes the turn onto the per-key buffer, then shifts oldest turns
into the returned eviction batch while the length exceeds `maxTurns`.
-/

structure BufferedTurn where
  role : String
  content : String
  timestamp : Nat
  sessionKey : String
deriving Repr, DecidableEq

/-- The `while (buffer.length > this.maxTurns) evicted.push(buffer.shift()!)`
loop of `append`: returns `(remaining buffer, evicted turns oldest-first)`. -/
def sbEvict (maxTurns : Nat) : List BufferedTurn → List BufferedTurn × List BufferedTurn
  | [] => ([], [])
  | t :: rest =>
    if (t :: rest).length > maxTurns then
      let p := sbEvict maxTurns rest
      (p.1, t :: p.2)
    else (t :: rest, [])

/-- `SessionBufferManager.append` for one session key: push the turn, then run
the eviction loop.  Returns `(new buffer, evicted batch)`. -/
def sbAppend (maxTurns : Nat) (buffer : List BufferedTurn) (turn : BufferedTurn) :
    List BufferedTurn × List BufferedTurn :=
  sbEvict maxTurns (buffer ++ [turn])

/-- A whole sequence of `append` calls for one session key, starting from a
given buffer.  Returns the final buffer and the eviction batches in order. -/
def sbAppendAll (maxTurns : Nat) (buffer : List BufferedTurn) :
    List BufferedTurn → List BufferedTurn × List (List BufferedTurn)
  | [] => (buffer, [])
  | t :: ts =>
    let step := sbAppend maxTurns buffer t
    let rest := sbAppendAll maxTurns step.1 ts
    (rest.1, step.2 :: rest.2)

/-! ## RequestQueue worker (main.ts:228-307)

`switchModel` splits the model ref at the first `/` and updates
`vamanConfig.agent.defaultProvider/defaultModel`; refs without a slash are
rejected without touching the config.  `processQueue` snapshots the primary
`(provider, model)`, prompts the agent, and on error walks the fallback
chain, restoring the primary afterwards and resolving with the primary
error text if every model failed.

The agent runtime is embedded as an oracle `behave : Nat → CallResult`
giving the outcome of the n-th `agent.prompt` invocation of this request
(a terminal text response, or a thrown error).  The embedding records the
trace of prompt calls: which `(provider, model)` each call used and its
outcome.
-/

/-- Outcome of one `agent.prompt` invocation: a terminal assistant text
(which the subscriber uses to resolve the request), or a thrown error. -/
inductive CallResult where
  | ok (text : List Char)
  | error (msg : List Char)
deriving Repr, DecidableEq

def CallResult.isOk : CallResult → Bool
  | .ok _ => true
  | .error _ => false

/-- The `vamanConfig.agent` fields touched by `switchModel`. -/
structure AgentConfig where
  defaultProvider : List Char
  defaultModel : List Char
deriving Repr, DecidableEq

/-- `modelRef.indexOf("/")` + the two `slice`s of `switchModel`:
splits at the first slash, `none` when there is no slash. -/
def splitFirstSlash : List Char → Option (List Char × List Char)
  | [] => none
  | c :: rest =>
    if c = '/' then some ([], rest)
    else
      match splitFirstSlash rest with
      | none => none
      | some (p, m) => some (c :: p, m)

/-- `switchModel(modelRef)` (main.ts:228-239): returns `false` and leaves the
config untouched when the ref has no slash, otherwise sets
`defaultProvider`/`defaultModel` to the parts around the first slash. -/
def switchModel (modelRef : List Char) (cfg : AgentConfig) : Bool × AgentConfig :=
  match splitFirstSlash modelRef with
  | none => (false, cfg)
  | some (prov, mod) => (true, { defaultProvider := prov, defaultModel := mod })

/-- One entry of the prompt-call trace: the `(provider, model)` pair the call
was issued under, and its outcome. -/
abbrev CallTraceEntry := (List Char × List Char) × CallResult

/-- The `for (const fb of fallbacks)` loop of `processQueue` (main.ts:265-277):
switch to each fallback ref in order and retry; stop at the first success.
`callIdx` numbers the `agent.prompt` invocations of this request.
Returns `(trace of calls, text of the first success if any, config after)`. -/
def runFallbacks (behave : Nat → CallResult) :
    List (List Char) → Nat → AgentConfig →
      List CallTraceEntry × Option (List Char) × AgentConfig
  | [], _, cfg => ([], none, cfg)
  | fb :: rest, callIdx, cfg =>
    let cfg1 := (switchModel fb cfg).2
    match behave callIdx with
    | .ok t => ([((cfg1.defaultProvider, cfg1.defaultModel), .ok t)], some t, cfg1)
    | .error e =>
      let r := runFallbacks behave rest (callIdx + 1) cfg1
      (((cfg1.defaultProvider, cfg1.defaultModel), .error e) :: r.1, r.2.1, r.2.2)

/-- Result of processing one queued request. -/
structure RequestOutcome where
  trace : List CallTraceEntry
  resolved : List Char
  final : AgentConfig
deriving Repr, DecidableEq

/-- One iteration of the `processQueue` worker loop (main.ts:241-307) for one
request: snapshot the primary `(provider, model)`, prompt; on error walk the
fallback chain, restore the primary model, and if nothing recovered resolve
with the primary error text. -/
def processOneRequest (cfg : AgentConfig) (fallbacks : List (List Char))
    (behave : Nat → CallResult) : RequestOutcome :=
  let primaryProvider := cfg.defaultProvider
  let primaryModel := cfg.defaultModel
  match behave 0 with
  | .ok t =>
    { trace := [((primaryProvider, primaryModel), .ok t)], resolved := t, final := cfg }
  | .error e =>
    let r := runFallbacks behave fallbacks 1 cfg
    let restored := (switchModel (primaryProvider ++ '/' :: primaryModel) r.2.2).2
    { trace := ((primaryProvider, primaryModel), .error e) :: r.1,
      resolved :=
        match r.2.1 with
        | some t => t
        | none => String.toList "Error: all models failed. " ++ e,
      final := restored }

/-! ## RestartManager (restart-sentinel.ts)

The sentinel file is the only filesystem state `consume` touches; it is
embedded as `Option (List Char)` (present with raw contents, or absent).
`JSON.parse` / `JSON.stringify` are external library calls, embedded as a
parse oracle and an opaque serialized document.  `triggerRestart` is
embedded as the trace of filesystem / process effects it performs.
-/

structure RestartSentinel where
  reason : List Char
  timestamp : Nat
  sessionKey : Option (List Char) := none
  discordTarget : Option (List Char) := none
  replyTo : Option (List Char) := none
deriving Repr, DecidableEq

/-- The filesystem state visible to `RestartManager`: the contents of
`restart-sentinel.json`, if the file exists. -/
structure SentinelFS where
  sentinel : Option (List Char)
deriving Repr, DecidableEq

/-- The whitespace class removed by JavaScript `String.prototype.trim`
(restricted to the characters that occur in practice). -/
def isJsWhitespace (c : Char) : Bool :=
  c = ' ' || c = '\t' || c = '\n' || c = '\r' ||
    c = Char.ofNat 11 || c = Char.ofNat 12

/-- JavaScript `String.prototype.trim`. -/
def jsTrim (s : List Char) : List Char :=
  ((s.dropWhile isJsWhitespace).reverse.dropWhile isJsWhitespace).reverse

/-- `RestartManager.consume` (restart-sentinel.ts:38-52): if the file is
missing, return null; read and trim; if empty, return null (the file is left
in place); parse; on success delete the file and return the sentinel; on a
parse error delete the file defensively and return null.
Returns `(returned value, filesystem afterwards)`. -/
def rmConsume (parse : List Char → Option RestartSentinel) (fs : SentinelFS) :
    Option RestartSentinel × SentinelFS :=
  match fs.sentinel with
  | none => (none, fs)
  | some raw =>
    let data := jsTrim raw
    if data = [] then (none, fs)
    else
      match parse data with
      | some sentinel => (some sentinel, ⟨none⟩)
      | none => (none, ⟨none⟩)

/-- Filesystem / process effects performed by `RestartManager`. -/
inductive FsOp where
  | writeFile (path : List Char) (data : List Char)
  | rename (src dst : List Char)
  | spawnSupervisor (cmd : List Char) (args : List (List Char))
deriving Repr, DecidableEq

def FsOp.isRename : FsOp → Bool
  | .rename _ _ => true
  | _ => false

def FsOp.isWrite : FsOp → Bool
  | .writeFile _ _ => true
  | _ => false

/-- `RestartManager.write` (restart-sentinel.ts:32-35): a single direct
`writeFileSync` of the serialized sentinel to the sentinel path. -/
def rmWrite (sentinelPath : List Char) (serialized : List Char) : List FsOp :=
  [FsOp.writeFile sentinelPath serialized]

/-- `RestartManager.triggerRestart` (restart-sentinel.ts:62-91): write the
sentinel, then spawn `systemctl --user restart <unit>`. -/
def rmTriggerRestart (sentinelPath : List Char) (systemdUnit : List Char)
    (serialized : List Char) : List FsOp :=
  rmWrite sentinelPath serialized ++
    [FsOp.spawnSupervisor (String.toList "systemctl")
      [String.toList "--user", String.toList "restart", systemdUnit]]

/-! ## SessionManager keys and filenames (session-manager.ts:32-64)

`filePath` stores a session under `hex(utf8(key)).jsonl`; `decodeFilename`
strips the `.jsonl` suffix (`filename.replace(".jsonl", "")`, which in
JavaScript replaces the first occurrence) and hex-decodes.  The UTF-8
codec is Node's `Buffer`; the embedding works at the byte level, with a
session key's UTF-8 bytes as `List Nat` (each `< 256`).
-/

/-- Lower-case hex digit for a value `< 16`, as produced by
`Buffer.prototype.toString("hex")`. -/
def hexDigitChar (n : Nat) : Char :=
  if n < 10 then Char.ofNat (48 + n) else Char.ofNat (97 + (n - 10))

/-- `Buffer.from(key, "utf-8").toString("hex")`: each byte becomes two
lower-case hex digits, high nibble first. -/
def hexEncodeBytes (bytes : List Nat) : List Char :=
  bytes.flatMap fun b => [hexDigitChar (b / 16), hexDigitChar (b % 16)]

/-- Value of one hex digit (either case), `none` for a non-hex character. -/
def hexDigitVal (c : Char) : Option Nat :=
  if 48 ≤ c.toNat ∧ c.toNat ≤ 57 then some (c.toNat - 48)
  else if 97 ≤ c.toNat ∧ c.toNat ≤ 102 then some (c.toNat - 97 + 10)
  else if 65 ≤ c.toNat ∧ c.toNat ≤ 70 then some (c.toNat - 65 + 10)
  else none

/-- `Buffer.from(hex, "hex")`: decode hex digit pairs into bytes.  `none`
models input rejected as not (fully) valid hex. -/
def hexDecodeBytes : List Char → Option (List Nat)
  | [] => some []
  | [_] => none
  | c1 :: c2 :: rest =>
    match hexDigitVal c1, hexDigitVal c2, hexDecodeBytes rest with
    | some hi, some lo, some bs => some ((16 * hi + lo) :: bs)
    | _, _, _ => none

/-- JavaScript `String.prototype.replace(pat, rep)` with string arguments:
replace the first occurrence of `pat`, if any. -/
def jsReplaceFirst (pat rep : List Char) : List Char → List Char
  | [] => if pat = [] then rep else []
  | c :: rest =>
    if pat.isPrefixOf (c :: rest) then rep ++ (c :: rest).drop pat.length
    else c :: jsReplaceFirst pat rep rest

/-- `SessionManager.filePath` (session-manager.ts:51-54), at the byte level:
the filename (without directory) for a session key. -/
def sessionFilename (keyBytes : List Nat) : List Char :=
  hexEncodeBytes keyBytes ++ String.toList ".jsonl"

/-- `SessionManager.decodeFilename` (session-manager.ts:57-64), at the byte
level: strip the first `.jsonl` occurrence, then hex-decode. -/
def decodeFilename (filename : List Char) : Option (List Nat) :=
  hexDecodeBytes (jsReplaceFirst (String.toList ".jsonl") [] filename)

/-- The `SessionKey` record (`@vaman-ai/shared`): `(agent, channel, target)`. -/
structure SessionKey where
  agent : List Char
  channel : List Char
  target : List Char
deriving Repr, DecidableEq

/-- `SessionManager.buildKey` (session-manager.ts:33-35):
`` `${key.agent}:${key.channel}:${key.target}` ``. -/
def buildKey (k : SessionKey) : List Char :=
  k.agent ++ ':' :: k.channel ++ ':' :: k.target

/-- JavaScript `String.prototype.split(sep)` for a one-character separator.
Never returns the empty list. -/
def jsSplit (sep : Char) : List Char → List (List Char)
  | [] => [[]]
  | c :: rest =>
    match jsSplit sep rest with
    | [] => []
    | w :: ws => if c = sep then [] :: w :: ws else (c :: w) :: ws

/-- JavaScript `Array.prototype.join(sep)` for a one-character separator. -/
def jsJoin (sep : Char) : List (List Char) → List Char
  | [] => []
  | [w] => w
  | w :: ws => w ++ sep :: jsJoin sep ws

/-- `SessionManager.parseKey` (session-manager.ts:38-48): split on `:`;
fewer than 3 parts is an error (`none` models the thrown exception);
otherwise the first two parts are agent and channel and the rest, re-joined
with `:`, is the target. -/
def parseKey (keyStr : List Char) : Option SessionKey :=
  let parts := jsSplit ':' keyStr
  if parts.length < 3 then none
  else
    some
      { agent := parts.headI
        channel := (parts.drop 1).headI
        target := jsJoin ':' (parts.drop 2) }

/-! ## Archive search (agent-bridge.ts:399-423) and the merge policy
(api/archive.ts:14-29, tools archive.ts `createArchiveSearchTool`)

The `turns` table is embedded as a list of rows.  `searchGrep` is
`WHERE content LIKE '%q%' ORDER BY timestamp DESC LIMIT n`: SQLite `LIKE`
is ASCII-case-insensitive with `%`/`_` wildcards.  `searchBM25` delegates
ranking to the FTS5 engine (an oracle); a thrown query error is caught and
becomes the empty list.  Both the HTTP route and the agent tool merge the
two result lists with the same loop: BM25 results first, then grep
results, deduplicated by `id`, truncated to `limit`.
-/

structure ArchivedTurn where
  id : Nat
  sessionKey : List Char
  role : List Char
  content : List Char
  timestamp : Nat
  tags : Option (List Char) := none
deriving Repr, DecidableEq

/-- ASCII lower-casing, as SQLite's default `LIKE` applies to A-Z. -/
def asciiLower (c : Char) : Char :=
  if 'A' ≤ c ∧ c ≤ 'Z' then Char.ofNat (c.toNat + 32) else c

/-- SQLite `LIKE` matching (default, case-insensitive for ASCII):
`%` matches any sequence (some suffix of the text matches the rest of the
pattern), `_` any single character, other characters match up to ASCII
case. -/
def sqliteLike : List Char → List Char → Bool
  | [], t => t.isEmpty
  | c :: p, t =>
    if c = '%' then t.tails.any fun s => sqliteLike p s
    else if c = '_' then
      match t with
      | [] => false
      | _ :: t' => sqliteLike p t'
    else
      match t with
      | [] => false
      | d :: t' => decide (asciiLower c = asciiLower d) && sqliteLike p t'

/-- `ORDER BY timestamp DESC`: row `a` sorts before row `b` when its
timestamp is at least `b`'s. -/
def tsGe (a b : ArchivedTurn) : Prop := b.timestamp ≤ a.timestamp

instance : DecidableRel tsGe := fun a b => Nat.decLe b.timestamp a.timestamp

instance : IsTotal ArchivedTurn tsGe := ⟨fun a b => Nat.le_total b.timestamp a.timestamp⟩

instance : IsTrans ArchivedTurn tsGe := ⟨fun _ _ _ h1 h2 => Nat.le_trans h2 h1⟩

/-- `ArchiveManager.searchGrep` (agent-bridge.ts:399-405): rows whose content
matches `LIKE '%' + query + '%'`, ordered newest-first, first `limit` rows. -/
def searchGrep (rows : List ArchivedTurn) (query : List Char) (limit : Nat) :
    List ArchivedTurn :=
  ((rows.filter fun r => sqliteLike ('%' :: (query ++ ['%'])) r.content).insertionSort
    tsGe).take limit

/-- `ArchiveManager.searchBM25` (agent-bridge.ts:407-423): the FTS5 `MATCH`
query is run by the engine (`ftsResult`); a thrown error (malformed query)
is caught and becomes `[]`, otherwise the ranked rows are limited. -/
def searchBM25 (ftsResult : Except (List Char) (List ArchivedTurn)) (limit : Nat) :
    List ArchivedTurn :=
  match ftsResult with
  | .error _ => []
  | .ok rows => rows.take limit

/-- The merge-dedupe loop shared by `/api/archive/search` (api/archive.ts:20-27)
and the `archive_search` tool: `seen` is the set of ids already emitted. -/
def mergeDedupe (seen : List Nat) : List ArchivedTurn → List ArchivedTurn
  | [] => []
  | r :: rs =>
    if r.id ∈ seen then mergeDedupe seen rs
    else r :: mergeDedupe (r.id :: seen) rs

/-- The `seen` set after the merge-dedupe loop has processed a list. -/
def mergeSeen (seen : List Nat) : List ArchivedTurn → List Nat
  | [] => seen
  | r :: rs =>
    if r.id ∈ seen then mergeSeen seen rs
    else mergeSeen (r.id :: seen) rs

/-- The merged archive search of `/api/archive/search` and the
`archive_search` tool: iterate over `[...bm25Results, ...grepResults]`,
dedupe by id, then `merged.slice(0, limit)`. -/
def archiveSearchMerge (bm25Results grepResults : List ArchivedTurn) (limit : Nat) :
    List ArchivedTurn :=
  (mergeDedupe [] (bm25Results ++ grepResults)).take limit

/-! ## ExtractorService.applyResult (extractor.ts:165-178)

The extractor's `applyResult` is embedded as the trace of effects it
performs on the rest of the system: `worldModel.applyUpdates(...)` and the
two `log.debug` calls.  `ArchiveManager.updateTags` would appear as an
`archiveUpdateTags` effect — the constructor exists so its absence from
every trace is expressible.
-/

inductive UpdateAction where
  | replace
  | add
  | remove
deriving Repr, DecidableEq

/-- A world-model update as returned by the extractor LLM call. -/
structure WorldModelUpdate where
  action : UpdateAction
  sectionName : List Char
  field : List Char
  value : Option (List Char) := none
deriving Repr, DecidableEq

/-- The parsed extractor output `{world_model_updates, tags, archive_note}`. -/
structure ExtractionOutput where
  world_model_updates : List WorldModelUpdate
  tags : List (List Char)
  archive_note : List Char
deriving Repr, DecidableEq

inductive ExtractorEffect where
  | applyWorldModelUpdates (updates : List WorldModelUpdate)
  | logNote (note : List Char)
  | logTags (tags : List (List Char))
  | archiveUpdateTags (ids : List Nat) (tags : List (List Char))
deriving Repr, DecidableEq

/-- `ExtractorService.applyResult` (extractor.ts:165-178): apply world-model
updates when non-empty; log the archive note when non-empty; log the tags
when non-empty. -/
def applyResult (result : ExtractionOutput) : List ExtractorEffect :=
  (if result.world_model_updates.length > 0 then
      [ExtractorEffect.applyWorldModelUpdates result.world_model_updates]
    else []) ++
  (if result.archive_note ≠ [] then [ExtractorEffect.logNote result.archive_note]
    else []) ++
  (if result.tags.length > 0 then [ExtractorEffect.logTags result.tags] else [])

/-! ## SessionManager.read (session-manager.ts:93-102)

`read` returns `[]` for a missing or (after `trim`) empty file; otherwise it
splits on `\n` and maps `JSON.parse` over every line.  `JSON.parse` is an
external library call, embedded as a parse oracle `parseLine`; a `none`
models a thrown `SyntaxError`, and `smRead = none` models `read` throwing. -/

structure SessionEntry where
  role : List Char
  content : List Char
  timestamp : Nat
deriving Repr, DecidableEq

/-- `lines.map(line => JSON.parse(line))` with a thrown `SyntaxError`
propagating: `none` as soon as any line fails to parse. -/
def mapJsonParse (parseLine : List Char → Option SessionEntry) :
    List (List Char) → Option (List SessionEntry)
  | [] => some []
  | l :: ls =>
    match parseLine l with
    | none => none
    | some e =>
      match mapJsonParse parseLine ls with
      | none => none
      | some es => some (e :: es)

/-- `SessionManager.read`, over the file contents (`none` = file missing). -/
def smRead (parseLine : List Char → Option SessionEntry)
    (file : Option (List Char)) : Option (List SessionEntry) :=
  match file with
  | none => some []
  | some content =>
    let c := jsTrim content
    if c = [] then some []
    else mapJsonParse parseLine (jsSplit '\n' c)

/-! # Lemmas and claim theorems -/

/-! ## SessionBuffer lemmas -/

lemma sbEvict_length_le (maxTurns : Nat) (l : List BufferedTurn) :
    (sbEvict maxTurns l).1.length ≤ maxTurns := by
  induction l with
  | nil => simp [sbEvict]
  | cons t rest ih =>
    simp only [sbEvict]
    split
    · exact ih
    · next h => simpa using Nat.le_of_not_lt h

lemma sbEvict_conserve (maxTurns : Nat) (l : List BufferedTurn) :
    (sbEvict maxTurns l).2 ++ (sbEvict maxTurns l).1 = l := by
  induction l with
  | nil => simp [sbEvict]
  | cons t rest ih =>
    simp only [sbEvict]
    split
    · simpa using ih
    · simp

lemma sbAppend_conserve (maxTurns : Nat) (buffer : List BufferedTurn)
    (turn : BufferedTurn) :
    (sbAppend maxTurns buffer turn).2 ++ (sbAppend maxTurns buffer turn).1 =
      buffer ++ [turn] :=
  sbEvict_conserve maxTurns (buffer ++ [turn])

lemma sbAppendAll_conserve (maxTurns : Nat) (buffer : List BufferedTurn)
    (ts : List BufferedTurn) :
    (sbAppendAll maxTurns buffer ts).2.flatten ++ (sbAppendAll maxTurns buffer ts).1 =
      buffer ++ ts := by
  induction ts generalizing buffer with
  | nil => simp [sbAppendAll]
  | cons t rest ih =>
    simp only [sbAppendAll, List.flatten, List.append_assoc]
    rw [ih]
    rw [← List.append_assoc, sbAppend_conserve]
    simp

/-- **C1.** For every session key and every sequence of appends to the
SessionBuffer, the buffer holds at most `maxTurns` turns after each append
(`conversationHistory`, default 10), and the eviction batches, concatenated
in order, are exactly the prefix of the appended turn sequence that is no
longer in the buffer (so each batch is ordered oldest-first). -/
theorem sessionBuffer_bound_and_eviction (maxTurns : Nat) (ts : List BufferedTurn) :
    (∀ buffer turn, (sbAppend maxTurns buffer turn).1.length ≤ maxTurns) ∧
      (sbAppendAll maxTurns [] ts).2.flatten ++ (sbAppendAll maxTurns [] ts).1 = ts := by
  refine ⟨fun buffer turn => sbEvict_length_le maxTurns (buffer ++ [turn]), ?_⟩
  simpa using sbAppendAll_conserve maxTurns [] ts

/-! ## Active hours -/

/-- **C6.** For heartbeat active hours with start `S` and end `E` in
minutes-of-day and current minute `t`: if `S < E` then `isActiveHours` is
true iff `S ≤ t < E`; if `S > E` (overnight window) it is true iff
`t ≥ S ∨ t < E`; if `S = E` it is always true. -/
theorem isActiveHours_correct (S E t : Nat) :
    (S < E → (isActiveHours S E t = true ↔ S ≤ t ∧ t < E)) ∧
    (E < S → (isActiveHours S E t = true ↔ t ≥ S ∨ t < E)) ∧
    (S = E → isActiveHours S E t = true) := by
  unfold isActiveHours
  refine ⟨?_, ?_, ?_⟩ <;> intro h
  · have hne : S ≠ E := Nat.ne_of_lt h
    simp [hne, h]
  · have hne : S ≠ E := (Nat.ne_of_lt h).symm
    have hnlt : ¬ S < E := Nat.not_lt.mpr (Nat.le_of_lt h)
    simp [hne, hnlt]
  · simp [h]

/-- Witness for C6: `isActiveHours` evaluated inside a normal window
(09:00-17:00 at 10:00), an overnight window (22:00-06:00 at 01:30), and a
degenerate window (05:00-05:00 at midnight). -/
theorem isActiveHours_correct_witness :
    isActiveHours 540 1020 600 = true ∧ isActiveHours 1320 360 90 = true ∧
      isActiveHours 300 300 0 = true :=
  ⟨((isActiveHours_correct 540 1020 600).1 (by decide)).mpr (by decide),
   ((isActiveHours_correct 1320 360 90).2.1 (by decide)).mpr (by decide),
   (isActiveHours_correct 300 300 0).2.2 rfl⟩

/-! ## RequestQueue lemmas -/

lemma splitFirstSlash_append (p m : List Char) (h : '/' ∉ p) :
    splitFirstSlash (p ++ '/' :: m) = some (p, m) := by
  induction p with
  | nil => simp [splitFirstSlash]
  | cons c rest ih =>
    have hc : c ≠ '/' := by
      intro hceq
      exact h (by simp [hceq])
    have h' : '/' ∉ rest := fun hm => h (List.mem_cons_of_mem _ hm)
    simp [splitFirstSlash, hc, ih h']

lemma switchModel_restore (cfg st : AgentConfig) (h : '/' ∉ cfg.defaultProvider) :
    (switchModel (cfg.defaultProvider ++ '/' :: cfg.defaultModel) st).2 = cfg := by
  simp [switchModel, splitFirstSlash_append _ _ h]

lemma runFallbacks_length (behave : Nat → CallResult) (fbs : List (List Char))
    (idx : Nat) (cfg : AgentConfig) :
    (runFallbacks behave fbs idx cfg).1.length ≤ fbs.length := by
  induction fbs generalizing idx cfg with
  | nil => simp [runFallbacks]
  | cons fb rest ih =>
    cases h : behave idx with
    | ok t => simp [runFallbacks, h]
    | error e =>
      simp only [runFallbacks, h, List.length_cons]
      exact Nat.succ_le_succ (ih (idx + 1) _)

lemma runFallbacks_mem_ok (behave : Nat → CallResult) (fbs : List (List Char))
    (idx : Nat) (cfg : AgentConfig) (p : List Char × List Char) (t : List Char) :
    (p, CallResult.ok t) ∈ (runFallbacks behave fbs idx cfg).1 →
      (runFallbacks behave fbs idx cfg).2.1 = some t := by
  induction fbs generalizing idx cfg with
  | nil => simp [runFallbacks]
  | cons fb rest ih =>
    cases h : behave idx with
    | ok u =>
      simp only [runFallbacks, h, List.mem_singleton]
      intro he
      have h2 : CallResult.ok t = CallResult.ok u := congrArg Prod.snd he
      rw [CallResult.ok.inj h2]
    | error e =>
      simp only [runFallbacks, h, List.mem_cons]
      rintro (he | hmem)
      · exact absurd (congrArg Prod.snd he) (by simp)
      · exact ih (idx + 1) ((switchModel fb cfg).2) hmem

lemma runFallbacks_ok_mem_last (behave : Nat → CallResult) (fbs : List (List Char))
    (idx : Nat) (cfg : AgentConfig) (e : CallTraceEntry) :
    e ∈ (runFallbacks behave fbs idx cfg).1 → e.2.isOk = true →
      (runFallbacks behave fbs idx cfg).1.getLast? = some e := by
  induction fbs generalizing idx cfg with
  | nil => simp [runFallbacks]
  | cons fb rest ih =>
    cases h : behave idx with
    | ok u => simp only [runFallbacks, h]; intro hmem _; simp_all
    | error er =>
      simp only [runFallbacks, h, List.mem_cons]
      rintro (rfl | hmem) hok
      · simp [CallResult.isOk] at hok
      · have hlast := ih (idx + 1) ((switchModel fb cfg).2) hmem hok
        rcases hr : (runFallbacks behave rest (idx + 1) ((switchModel fb cfg).2)).1 with
          _ | ⟨x, xs⟩
        · rw [hr] at hmem; simp at hmem
        · rw [hr] at hlast
          rw [List.getLast?_cons_cons, hlast]

lemma runFallbacks_all_err_none (behave : Nat → CallResult) (fbs : List (List Char))
    (idx : Nat) (cfg : AgentConfig) :
    (∀ e ∈ (runFallbacks behave fbs idx cfg).1, e.2.isOk = false) →
      (runFallbacks behave fbs idx cfg).2.1 = none := by
  induction fbs generalizing idx cfg with
  | nil => intro _; simp [runFallbacks]
  | cons fb rest ih =>
    cases h : behave idx with
    | ok u =>
      simp only [runFallbacks, h]
      intro hall
      have hfalse := hall _ (List.mem_singleton.mpr rfl)
      simp [CallResult.isOk] at hfalse
    | error er =>
      simp only [runFallbacks, h]
      intro hall
      exact ih (idx + 1) ((switchModel fb cfg).2)
        (fun e he => hall e (List.mem_cons_of_mem _ he))

/-- **C2.** For every request processed by the queue worker with a fallback
chain of length `F`: at most `F + 1` prompt calls are issued before the
request resolves; every prompt call before the last one failed, and if a
call succeeded its text resolves the request (the first success resolves);
if every model failed the request resolves with the primary model's error
text; and the primary `(provider, model)` is restored in the config before
the next request is processed. -/
theorem requestQueue_fallback (cfg : AgentConfig) (fallbacks : List (List Char))
    (behave : Nat → CallResult) (hprov : '/' ∉ cfg.defaultProvider) :
    (processOneRequest cfg fallbacks behave).trace.length ≤ fallbacks.length + 1 ∧
    (processOneRequest cfg fallbacks behave).final = cfg ∧
    (∀ e ∈ (processOneRequest cfg fallbacks behave).trace, e.2.isOk = true →
      (processOneRequest cfg fallbacks behave).trace.getLast? = some e) ∧
    (∀ p t, (p, CallResult.ok t) ∈ (processOneRequest cfg fallbacks behave).trace →
      (processOneRequest cfg fallbacks behave).resolved = t) ∧
    (∀ e0, behave 0 = CallResult.error e0 →
      (∀ e ∈ (processOneRequest cfg fallbacks behave).trace, e.2.isOk = false) →
      (processOneRequest cfg fallbacks behave).resolved =
        String.toList "Error: all models failed. " ++ e0) := by
  cases h0 : behave 0 with
  | ok t =>
    simp only [processOneRequest, h0]
    refine ⟨by simp, by trivial, ?_, ?_, ?_⟩
    · intro e he _
      simp only [List.mem_singleton] at he
      simp [he]
    · intro p u hmem
      simp only [List.mem_singleton] at hmem
      exact (CallResult.ok.inj (congrArg Prod.snd hmem)).symm
    · intro e0 he0 _
      exact absurd he0 (by simp)
  | error e =>
    simp only [processOneRequest, h0]
    refine ⟨?_, ?_, ?_, ?_, ?_⟩
    · simpa using Nat.succ_le_succ (runFallbacks_length behave fallbacks 1 cfg)
    · exact switchModel_restore cfg _ hprov
    · intro e' he' hok
      simp only [List.mem_cons] at he'
      rcases he' with rfl | hmem
      · simp [CallResult.isOk] at hok
      · have hlast := runFallbacks_ok_mem_last behave fallbacks 1 cfg e' hmem hok
        rcases hsplit : (runFallbacks behave fallbacks 1 cfg).1 with _ | ⟨x, xs⟩
        · rw [hsplit] at hmem; simp at hmem
        · rw [hsplit] at hlast
          rw [List.getLast?_cons_cons]
          exact hlast
    · intro p u hmem
      simp only [List.mem_cons] at hmem
      rcases hmem with he' | hmem
      · exact absurd (congrArg Prod.snd he') (by simp)
      · have hsome := runFallbacks_mem_ok behave fallbacks 1 cfg p u hmem
        simp [hsome]
    · intro e0 he0 hall
      have he0' := CallResult.error.inj he0
      have hnone := runFallbacks_all_err_none behave fallbacks 1 cfg
        (fun e' he' => hall e' (List.mem_cons_of_mem _ he'))
      simp [hnone, he0']

/-- Witness for C2: a primary that throws and a single fallback that
succeeds; the theorem yields the `F + 1` call bound and the restored
primary config at this concrete input. -/
theorem requestQueue_fallback_witness :
    (processOneRequest ⟨String.toList "openai", String.toList "gpt-4"⟩
        [String.toList "anthropic/claude"]
        (fun n => if n = 0 then CallResult.error (String.toList "boom")
          else CallResult.ok (String.toList "fine"))).final =
      ⟨String.toList "openai", String.toList "gpt-4"⟩ ∧
    (processOneRequest ⟨String.toList "openai", String.toList "gpt-4"⟩
        [String.toList "anthropic/claude"]
        (fun n => if n = 0 then CallResult.error (String.toList "boom")
          else CallResult.ok (String.toList "fine"))).trace.length ≤ 2 := by
  have h := requestQueue_fallback ⟨String.toList "openai", String.toList "gpt-4"⟩
    [String.toList "anthropic/claude"]
    (fun n => if n = 0 then CallResult.error (String.toList "boom")
      else CallResult.ok (String.toList "fine"))
    (by decide)
  exact ⟨h.2.1, h.1⟩

/-! ## RestartManager -/

/-- **C3.** `RestartManager.consume` is exactly-once: if it returns a
sentinel value, the file is deleted, so a subsequent `consume` returns null;
if the file exists with non-blank unparseable contents, `consume` deletes it
defensively and returns null; and once `consume` returns null, subsequent
calls (with no intervening write) keep returning null, so no value written
before can be observed. -/
theorem restartSentinel_exactly_once (parse : List Char → Option RestartSentinel)
    (fs : SentinelFS) :
    (∀ v fs', rmConsume parse fs = (some v, fs') →
      fs'.sentinel = none ∧ rmConsume parse fs' = (none, fs')) ∧
    (∀ raw, fs.sentinel = some raw → jsTrim raw ≠ [] → parse (jsTrim raw) = none →
      rmConsume parse fs = (none, ⟨none⟩)) ∧
    (∀ fs', rmConsume parse fs = (none, fs') → rmConsume parse fs' = (none, fs')) := by
  obtain ⟨s⟩ := fs
  cases s with
  | none =>
    refine ⟨?_, ?_, ?_⟩
    · intro v fs' h
      simp [rmConsume] at h
    · intro raw hraw
      simp at hraw
    · intro fs' h
      simp only [rmConsume] at h
      have hfs' : fs' = ⟨none⟩ := ((Prod.mk.injEq _ _ _ _).mp h.symm).2
      rw [hfs']
      simp [rmConsume]
  | some raw =>
    by_cases htrim : jsTrim raw = []
    · refine ⟨?_, ?_, ?_⟩
      · intro v fs' h
        simp [rmConsume, htrim] at h
      · intro raw' hraw' hne
        have : raw' = raw := (Option.some_inj.mp hraw').symm
        rw [this] at hne
        exact absurd htrim hne
      · intro fs' h
        simp only [rmConsume, htrim, if_pos rfl] at h
        have hfs' : fs' = ⟨some raw⟩ := ((Prod.mk.injEq _ _ _ _).mp h.symm).2
        rw [hfs']
        simp [rmConsume, htrim]
    · cases hp : parse (jsTrim raw) with
      | none =>
        refine ⟨?_, ?_, ?_⟩
        · intro v fs' h
          simp [rmConsume, htrim, hp] at h
        · intro raw' hraw' hne hp'
          simp [rmConsume, htrim, hp]
        · intro fs' h
          simp only [rmConsume, htrim, if_neg htrim, hp] at h
          have hfs' : fs' = ⟨none⟩ := ((Prod.mk.injEq _ _ _ _).mp h.symm).2
          rw [hfs']
          simp [rmConsume]
      | some v0 =>
        refine ⟨?_, ?_, ?_⟩
        · intro v fs' h
          simp only [rmConsume, if_neg htrim, hp] at h
          have hfs' : fs' = ⟨none⟩ := ((Prod.mk.injEq _ _ _ _).mp h.symm).2
          rw [hfs']
          exact ⟨rfl, by simp [rmConsume]⟩
        · intro raw' hraw' hne hp'
          have : raw' = raw := (Option.some_inj.mp hraw').symm
          rw [this] at hp'
          rw [hp'] at hp
          exact absurd hp (by simp)
        · intro fs' h
          simp [rmConsume, htrim, hp] at h

/-- Witness for C3: a concrete parse oracle and a present sentinel file;
after a successful `consume` the follow-up `consume` returns null. -/
theorem restartSentinel_exactly_once_witness :
    rmConsume
        (fun l => if l = String.toList "sentinel-doc" then
          some { reason := String.toList "upgrade", timestamp := 5 } else none)
        ⟨none⟩ = (none, ⟨none⟩) :=
  ((restartSentinel_exactly_once
      (fun l => if l = String.toList "sentinel-doc" then
        some { reason := String.toList "upgrade", timestamp := 5 } else none)
      ⟨some (String.toList "sentinel-doc")⟩).1
    { reason := String.toList "upgrade", timestamp := 5 } ⟨none⟩ (by decide)).2

/-- Counterexample for **C10**: at a concrete sentinel path, systemd unit and
serialized document, the effect trace of `triggerRestart` contains no rename
at all and its first effect is a direct write to the fixed sentinel path —
so the sentinel is *not* written first to a temporary file and then renamed
over the sentinel path. -/
theorem triggerRestart_no_rename_counterexample :
    (rmTriggerRestart (String.toList "data/restart-sentinel.json")
        (String.toList "vaman-gateway.service") (String.toList "doc")).all
      (fun op => !op.isRename) = true ∧
    (rmTriggerRestart (String.toList "data/restart-sentinel.json")
        (String.toList "vaman-gateway.service") (String.toList "doc")).head? =
      some (FsOp.writeFile (String.toList "data/restart-sentinel.json")
        (String.toList "doc")) := by
  constructor <;> rfl

/-- **C10 (amended).** `triggerRestart` writes the restart sentinel with a
single direct `writeFileSync` to the fixed sentinel path — not via a
temporary file plus rename — and does so before invoking the external
supervisor command. -/
theorem triggerRestart_direct_write_then_spawn (sentinelPath systemdUnit
    serialized : List Char) :
    rmTriggerRestart sentinelPath systemdUnit serialized =
      [FsOp.writeFile sentinelPath serialized,
        FsOp.spawnSupervisor (String.toList "systemctl")
          [String.toList "--user", String.toList "restart", systemdUnit]] ∧
    (∀ op ∈ rmTriggerRestart sentinelPath systemdUnit serialized,
      op.isRename = false) := by
  refine ⟨rfl, ?_⟩
  intro op hop
  simp only [rmTriggerRestart, rmWrite, List.cons_append, List.nil_append,
    List.mem_cons, List.not_mem_nil, or_false] at hop
  rcases hop with rfl | rfl <;> rfl

/-- Witness for C10 (amended): the effect sequence at a concrete path, unit
and serialized sentinel, and the non-rename fact for its write effect. -/
theorem triggerRestart_direct_write_then_spawn_witness :
    rmTriggerRestart (String.toList "data/restart-sentinel.json")
        (String.toList "vaman-gateway.service") (String.toList "sentinel-doc") =
      [FsOp.writeFile (String.toList "data/restart-sentinel.json")
          (String.toList "sentinel-doc"),
        FsOp.spawnSupervisor (String.toList "systemctl")
          [String.toList "--user", String.toList "restart",
            String.toList "vaman-gateway.service"]] ∧
    (FsOp.writeFile (String.toList "data/restart-sentinel.json")
        (String.toList "sentinel-doc")).isRename = false :=
  ⟨(triggerRestart_direct_write_then_spawn (String.toList "data/restart-sentinel.json")
      (String.toList "vaman-gateway.service") (String.toList "sentinel-doc")).1,
    (triggerRestart_direct_write_then_spawn (String.toList "data/restart-sentinel.json")
      (String.toList "vaman-gateway.service") (String.toList "sentinel-doc")).2
      (FsOp.writeFile (String.toList "data/restart-sentinel.json")
        (String.toList "sentinel-doc")) (by decide)⟩

/-! ## Session key / filename lemmas -/

lemma hexDigitVal_hexDigitChar (n : Nat) (h : n < 16) :
    hexDigitVal (hexDigitChar n) = some n := by
  interval_cases n <;> decide

lemma hexDigitChar_ne_dot (n : Nat) (h : n < 16) : hexDigitChar n ≠ '.' := by
  interval_cases n <;> decide

lemma dot_not_mem_hexEncode (bytes : List Nat) (h : ∀ b ∈ bytes, b < 256) :
    '.' ∉ hexEncodeBytes bytes := by
  intro hmem
  simp only [hexEncodeBytes, List.mem_flatMap] at hmem
  obtain ⟨b, hb, hc⟩ := hmem
  have hb256 := h b hb
  have h1 : b / 16 < 16 := Nat.div_lt_of_lt_mul (by omega)
  have h2 : b % 16 < 16 := Nat.mod_lt _ (by omega)
  simp only [List.mem_cons, List.not_mem_nil, or_false] at hc
  rcases hc with hc | hc
  · exact hexDigitChar_ne_dot _ h1 hc.symm
  · exact hexDigitChar_ne_dot _ h2 hc.symm

lemma hexDecode_hexEncode (bytes : List Nat) (h : ∀ b ∈ bytes, b < 256) :
    hexDecodeBytes (hexEncodeBytes bytes) = some bytes := by
  induction bytes with
  | nil => simp [hexEncodeBytes, hexDecodeBytes]
  | cons b rest ih =>
    have hb := h b (List.mem_cons_self b rest)
    have h1 : b / 16 < 16 := Nat.div_lt_of_lt_mul (by omega)
    have h2 : b % 16 < 16 := Nat.mod_lt _ (by omega)
    have hrest := ih fun x hx => h x (List.mem_cons_of_mem _ hx)
    have hcons : hexEncodeBytes (b :: rest) =
        hexDigitChar (b / 16) :: hexDigitChar (b % 16) :: hexEncodeBytes rest := rfl
    rw [hcons]
    simp only [hexDecodeBytes, hexDigitVal_hexDigitChar _ h1,
      hexDigitVal_hexDigitChar _ h2, hrest]
    simp [Nat.div_add_mod]

lemma jsReplaceFirst_head_notin (c : Char) (pat pre : List Char) (h : c ∉ pre) :
    jsReplaceFirst (c :: pat) [] (pre ++ c :: pat) = pre := by
  induction pre with
  | nil =>
    simp only [List.nil_append, jsReplaceFirst]
    rw [if_pos (by simp [List.isPrefixOf_iff_prefix])]
    simp
  | cons d pre' ih =>
    have hcd : (c == d) = false := by
      simp only [beq_eq_false_iff_ne, ne_eq]
      intro hc
      exact h (by simp [hc])
    have ih' := ih fun hm => h (List.mem_cons_of_mem _ hm)
    simp only [List.cons_append, jsReplaceFirst, List.isPrefixOf, hcd, Bool.false_and,
      if_neg (by simp : ¬ (false = true)), List.append_eq]
    rw [ih']

lemma jsSplit_ne_nil (sep : Char) (s : List Char) : jsSplit sep s ≠ [] := by
  induction s with
  | nil => simp [jsSplit]
  | cons c rest ih =>
    rcases hs : jsSplit sep rest with _ | ⟨w, ws⟩
    · exact absurd hs ih
    · simp only [jsSplit, hs]
      split <;> simp

lemma jsSplit_append (sep : Char) (a t : List Char) (h : sep ∉ a) :
    jsSplit sep (a ++ sep :: t) = a :: jsSplit sep t := by
  induction a with
  | nil =>
    simp only [List.nil_append, jsSplit]
    rcases hs : jsSplit sep t with _ | ⟨w, ws⟩
    · exact absurd hs (jsSplit_ne_nil sep t)
    · simp
  | cons d a' ih =>
    have hds : ¬ d = sep := fun hd => h (by simp [hd])
    have ih' := ih fun hm => h (List.mem_cons_of_mem _ hm)
    simp only [List.cons_append, jsSplit, List.append_eq, ih']
    simp [hds]

lemma jsJoin_jsSplit (sep : Char) (s : List Char) :
    jsJoin sep (jsSplit sep s) = s := by
  induction s with
  | nil => simp [jsSplit, jsJoin]
  | cons c rest ih =>
    simp only [jsSplit]
    rcases hs : jsSplit sep rest with _ | ⟨w, ws⟩
    · exact absurd hs (jsSplit_ne_nil sep rest)
    · rw [hs] at ih
      by_cases hc : c = sep
      · subst hc
        simp only [if_pos rfl]
        cases ws with
        | nil => simp_all [jsJoin]
        | cons x xs => simp_all [jsJoin]
      · simp only [if_neg hc]
        cases ws with
        | nil => simp_all [jsJoin]
        | cons x xs => simp_all [jsJoin]

/-- **C4.** Session keys round-trip.  At the byte level (a session key's
UTF-8 bytes): hex-decoding the hex-derived session filename yields the key
back; distinct keys never collide on a filename; and `parseKey` splits a
rendered `agent:channel:target` key on the first two colons only, so a key
whose target itself contains colons is recovered unchanged by
`parseKey (buildKey k)`. -/
theorem sessionKey_roundtrip (bytes bytes2 : List Nat) (k : SessionKey)
    (hb : ∀ b ∈ bytes, b < 256) (hb2 : ∀ b ∈ bytes2, b < 256)
    (hagent : ':' ∉ k.agent) (hchannel : ':' ∉ k.channel) :
    decodeFilename (sessionFilename bytes) = some bytes ∧
    (sessionFilename bytes = sessionFilename bytes2 → bytes = bytes2) ∧
    parseKey (buildKey k) = some k := by
  have hdecode : ∀ (bs : List Nat), (∀ b ∈ bs, b < 256) →
      decodeFilename (sessionFilename bs) = some bs := by
    intro bs hbs
    have hdot := dot_not_mem_hexEncode bs hbs
    simp only [decodeFilename, sessionFilename]
    rw [show String.toList ".jsonl" = '.' :: String.toList "jsonl" from rfl,
      jsReplaceFirst_head_notin _ _ _ hdot]
    exact hexDecode_hexEncode bs hbs
  refine ⟨hdecode bytes hb, ?_, ?_⟩
  · intro heq
    have h1 := hdecode bytes hb
    have h2 := hdecode bytes2 hb2
    rw [heq, h2] at h1
    exact (Option.some_inj.mp h1).symm
  · obtain ⟨agent, channel, target⟩ := k
    simp only at hagent hchannel
    simp only [buildKey]
    have hsplit : jsSplit ':' (agent ++ ':' :: (channel ++ ':' :: target)) =
        agent :: channel :: jsSplit ':' target := by
      rw [jsSplit_append ':' agent _ hagent, jsSplit_append ':' channel _ hchannel]
    simp only [parseKey, List.append_assoc, List.cons_append] at hsplit ⊢
    rw [hsplit]
    have hlen : ¬ (agent :: channel :: jsSplit ':' target).length < 3 := by
      have := jsSplit_ne_nil ':' target
      rcases hs : jsSplit ':' target with _ | ⟨w, ws⟩
      · exact absurd hs this
      · simp
    rw [if_neg hlen]
    simp [jsJoin_jsSplit]

/-- Witness for C4: concrete key bytes and the session key
`main:discord:dm:42`, whose target `dm:42` itself contains a colon. -/
theorem sessionKey_roundtrip_witness :
    decodeFilename (sessionFilename [109, 97]) = some [109, 97] ∧
    parseKey (buildKey ⟨String.toList "main", String.toList "discord",
        String.toList "dm:42"⟩) =
      some ⟨String.toList "main", String.toList "discord", String.toList "dm:42"⟩ := by
  have h := sessionKey_roundtrip [109, 97] [107]
    ⟨String.toList "main", String.toList "discord", String.toList "dm:42"⟩
    (by decide) (by decide) (by decide) (by decide)
  exact ⟨h.1, h.2.2⟩

/-! ## Archive search-merge lemmas -/

lemma mergeDedupe_append (s : List Nat) (xs ys : List ArchivedTurn) :
    mergeDedupe s (xs ++ ys) =
      mergeDedupe s xs ++ mergeDedupe (mergeSeen s xs) ys := by
  induction xs generalizing s with
  | nil => simp [mergeDedupe, mergeSeen]
  | cons r rs ih =>
    by_cases hid : r.id ∈ s <;>
      simp [mergeDedupe, mergeSeen, hid, ih]

lemma mergeDedupe_seen_congr (s₁ s₂ : List Nat) (l : List ArchivedTurn)
    (h : ∀ i, i ∈ s₁ ↔ i ∈ s₂) : mergeDedupe s₁ l = mergeDedupe s₂ l := by
  induction l generalizing s₁ s₂ with
  | nil => simp [mergeDedupe]
  | cons r rs ih =>
    by_cases hid : r.id ∈ s₁
    · have hid₂ : r.id ∈ s₂ := (h _).mp hid
      simp [mergeDedupe, hid, hid₂, ih s₁ s₂ h]
    · have hid₂ : r.id ∉ s₂ := fun hm => hid ((h _).mpr hm)
      simp only [mergeDedupe, if_neg hid, if_neg hid₂]
      rw [ih (r.id :: s₁) (r.id :: s₂) (by intro i; simp [h i])]

lemma mem_mergeSeen (s : List Nat) (xs : List ArchivedTurn) (i : Nat) :
    i ∈ mergeSeen s xs ↔ i ∈ s ∨ i ∈ xs.map ArchivedTurn.id := by
  induction xs generalizing s with
  | nil => simp [mergeSeen]
  | cons r rs ih =>
    by_cases hid : r.id ∈ s
    · simp only [mergeSeen, if_pos hid, ih, List.map_cons, List.mem_cons]
      constructor
      · rintro (hi | hi)
        · exact Or.inl hi
        · exact Or.inr (Or.inr hi)
      · rintro (hi | rfl | hi)
        · exact Or.inl hi
        · exact Or.inl hid
        · exact Or.inr hi
    · simp only [mergeSeen, if_neg hid, ih, List.map_cons, List.mem_cons]
      constructor
      · rintro (⟨hi | hi⟩ | hi)
        · exact Or.inr (Or.inl hi)
        · exact Or.inl hi
        · exact Or.inr (Or.inr hi)
      · rintro (hi | rfl | hi)
        · exact Or.inl (Or.inr hi)
        · exact Or.inl (Or.inl rfl)
        · exact Or.inr hi

lemma mergeDedupe_filter (s : List Nat) (l : List ArchivedTurn) :
    mergeDedupe s l = (mergeDedupe [] l).filter fun r => decide (r.id ∉ s) := by
  induction l generalizing s with
  | nil => simp [mergeDedupe]
  | cons r rs ih =>
    by_cases hid : r.id ∈ s
    · rw [show mergeDedupe s (r :: rs) = mergeDedupe s rs by simp [mergeDedupe, hid],
        show mergeDedupe [] (r :: rs) = r :: mergeDedupe [r.id] rs by
          simp [mergeDedupe],
        ih s, ih [r.id], List.filter_cons, if_neg (by simp [hid]),
        List.filter_filter]
      apply List.filter_congr
      intro x _
      by_cases hxs : x.id ∈ s
      · simp [hxs]
      · have hxr : x.id ≠ r.id := fun he => hxs (he ▸ hid)
        simp [hxs, hxr]
    · rw [show mergeDedupe s (r :: rs) = r :: mergeDedupe (r.id :: s) rs by
          simp [mergeDedupe, hid],
        show mergeDedupe [] (r :: rs) = r :: mergeDedupe [r.id] rs by
          simp [mergeDedupe],
        ih (r.id :: s), ih [r.id], List.filter_cons, if_pos (by simp [hid]),
        List.filter_filter]
      congr 1
      apply List.filter_congr
      intro x _
      by_cases hxs : x.id ∈ s <;> by_cases hxr : x.id = r.id <;>
        simp [hxs, hxr]

lemma mergeDedupe_nil_of_nodup (l : List ArchivedTurn)
    (h : (l.map ArchivedTurn.id).Nodup) : mergeDedupe [] l = l := by
  induction l with
  | nil => simp [mergeDedupe]
  | cons r rs ih =>
    simp only [List.map_cons, List.nodup_cons] at h
    rw [show mergeDedupe [] (r :: rs) = r :: mergeDedupe [r.id] rs by
      simp [mergeDedupe]]
    rw [mergeDedupe_filter [r.id] rs, ih h.2]
    congr 1
    apply List.filter_eq_self.mpr
    intro x hx
    have hne : x.id ≠ r.id := by
      intro he
      exact h.1 (he ▸ List.mem_map_of_mem ArchivedTurn.id hx)
    simp [hne]

/-- **C5.** The merged archive search (used identically by the
`/api/archive/search` route of the ManagementAPI and by the
`archive_search` agent tool) returns the deduplicated BM25 results first,
followed by the grep results whose row ID did not already occur among the
BM25 results (grep-only rows, themselves deduplicated), truncated to
`limit`; when the two input lists are already ID-duplicate-free — as SQL
result sets are — this is exactly: BM25 results first, then grep-only
results, deduplicated by row ID, truncated to `limit`. -/
theorem archiveSearch_merge_policy (bm25Results grepResults : List ArchivedTurn)
    (limit : Nat) :
    archiveSearchMerge bm25Results grepResults limit =
      (mergeDedupe [] bm25Results ++
        (mergeDedupe [] grepResults).filter
          (fun r => decide (r.id ∉ bm25Results.map ArchivedTurn.id))).take limit ∧
    ((bm25Results.map ArchivedTurn.id).Nodup →
      (grepResults.map ArchivedTurn.id).Nodup →
      archiveSearchMerge bm25Results grepResults limit =
        (bm25Results ++ grepResults.filter
          (fun r => decide (r.id ∉ bm25Results.map ArchivedTurn.id))).take limit) := by
  have hmain : archiveSearchMerge bm25Results grepResults limit =
      (mergeDedupe [] bm25Results ++
        (mergeDedupe [] grepResults).filter
          (fun r => decide (r.id ∉ bm25Results.map ArchivedTurn.id))).take limit := by
    unfold archiveSearchMerge
    rw [mergeDedupe_append]
    rw [mergeDedupe_seen_congr (mergeSeen [] bm25Results)
      (bm25Results.map ArchivedTurn.id) grepResults
      (by intro i; simp [mem_mergeSeen])]
    rw [mergeDedupe_filter (bm25Results.map ArchivedTurn.id) grepResults]
  refine ⟨hmain, fun hbm hgr => ?_⟩
  rw [hmain, mergeDedupe_nil_of_nodup _ hbm, mergeDedupe_nil_of_nodup _ hgr]

/-- Witness for C5: the S3 scenario of the design document — rows
`"alpha"` (id 1), `"alpha beta"` (id 2), `"beta gamma"` (id 3); BM25 ranks
row 2 first for `"alpha beta"`, grep for `"alpha"` finds rows 2 and 1; the
merged result is row 2 then row 1, the grep-only contribution after the
BM25 ones. -/
theorem archiveSearch_merge_policy_witness :
    archiveSearchMerge
        [⟨2, String.toList "k", String.toList "user", String.toList "alpha beta", 20, none⟩]
        [⟨2, String.toList "k", String.toList "user", String.toList "alpha beta", 20, none⟩,
          ⟨1, String.toList "k", String.toList "user", String.toList "alpha", 10, none⟩]
        3 =
      [⟨2, String.toList "k", String.toList "user", String.toList "alpha beta", 20, none⟩,
        ⟨1, String.toList "k", String.toList "user", String.toList "alpha", 10, none⟩] := by
  rw [(archiveSearch_merge_policy
    [⟨2, String.toList "k", String.toList "user", String.toList "alpha beta", 20, none⟩]
    [⟨2, String.toList "k", String.toList "user", String.toList "alpha beta", 20, none⟩,
      ⟨1, String.toList "k", String.toList "user", String.toList "alpha", 10, none⟩]
    3).2 (by decide) (by decide)]
  decide

/-! ## searchGrep / searchBM25 -/

/-- Counterexample for **C7**: `searchGrep` is a SQL `LIKE '%q%'` scan, and
SQLite's default `LIKE` is ASCII-case-insensitive — a row whose content is
`"Alpha"` is returned for the query `"alpha"` although `"alpha"` is *not* an
exact substring of `"Alpha"`.  So `searchGrep` does not return only rows
whose content contains the query as an exact substring. -/
theorem searchGrep_substring_counterexample :
    searchGrep
        [⟨1, String.toList "k", String.toList "user", String.toList "Alpha", 10, none⟩]
        (String.toList "alpha") 10 =
      [⟨1, String.toList "k", String.toList "user", String.toList "Alpha", 10, none⟩] ∧
    ¬ (String.toList "alpha" <:+: String.toList "Alpha") := by
  constructor
  · decide
  · decide

/-- **C7 (amended).** `searchGrep(q, limit)` returns only rows of the table
whose content matches the SQL pattern `LIKE '%q%'` (ASCII-case-insensitive,
with `%`/`_` in `q` acting as wildcards — not exact substring containment),
ordered newest-first; and `searchBM25` on a malformed query (the FTS engine
throws) returns the empty list rather than failing. -/
theorem searchGrep_like_and_order (rows : List ArchivedTurn) (query : List Char)
    (limit : Nat) :
    (∀ r ∈ searchGrep rows query limit,
      r ∈ rows ∧ sqliteLike ('%' :: (query ++ ['%'])) r.content = true) ∧
    List.Sorted tsGe (searchGrep rows query limit) ∧
    ∀ (err : List Char) (lim : Nat), searchBM25 (Except.error err) lim = [] := by
  refine ⟨?_, ?_, fun _ _ => rfl⟩
  · intro r hr
    have hr' : r ∈ (rows.filter fun r =>
        sqliteLike ('%' :: (query ++ ['%'])) r.content).insertionSort tsGe :=
      (List.take_sublist _ _).subset hr
    have hperm := List.perm_insertionSort tsGe
      (rows.filter fun r => sqliteLike ('%' :: (query ++ ['%'])) r.content)
    have hmem := hperm.subset hr'
    exact ⟨(List.mem_filter.mp hmem).1, (List.mem_filter.mp hmem).2⟩
  · exact (List.sorted_insertionSort tsGe _).sublist (List.take_sublist _ _)

/-- Witness for C7 (amended): a returned row's content matches the LIKE
pattern at a concrete input, and a concrete result list is sorted
newest-first. -/
theorem searchGrep_like_and_order_witness :
    sqliteLike ('%' :: (String.toList "alpha" ++ ['%'])) (String.toList "xAlphay") =
      true ∧
    List.Sorted tsGe (searchGrep
      [⟨1, String.toList "k", String.toList "user", String.toList "xAlphay", 10, none⟩]
      (String.toList "alpha") 10) := by
  have h := searchGrep_like_and_order
    [⟨1, String.toList "k", String.toList "user", String.toList "xAlphay", 10, none⟩]
    (String.toList "alpha") 10
  exact ⟨(h.1 ⟨1, String.toList "k", String.toList "user", String.toList "xAlphay",
    10, none⟩ (by decide)).2, h.2.1⟩

/-! ## Extractor applyResult -/

/-- Counterexample for **C8**: for a successfully parsed extraction result
with non-empty updates, tags and note, the effect trace of
`ExtractorService.applyResult` is exactly: apply the world-model updates,
log the note, log the tags.  The tags are only passed to `log.debug` — no
`ArchiveManager.updateTags` effect occurs, so the returned tags are *not*
recorded on the most recent archive rows. -/
theorem extractor_tags_counterexample :
    applyResult
        ⟨[⟨UpdateAction.replace, String.toList "Current Task",
            String.toList "Working on", some (String.toList "Y")⟩],
          [String.toList "lean"], String.toList "did a thing"⟩ =
      [ExtractorEffect.applyWorldModelUpdates
          [⟨UpdateAction.replace, String.toList "Current Task",
            String.toList "Working on", some (String.toList "Y")⟩],
        ExtractorEffect.logNote (String.toList "did a thing"),
        ExtractorEffect.logTags [String.toList "lean"]] := by
  decide

/-- **C8 (amended).** For every completed exchange whose extraction succeeds,
the extractor applies the world-model updates; the returned tags and the
archive note are each only logged — no effect records tags on archive rows
(`ArchiveManager.updateTags` is never invoked by the extractor). -/
theorem extractor_applies_updates_logs_tags (result : ExtractionOutput) :
    (result.world_model_updates ≠ [] →
      ExtractorEffect.applyWorldModelUpdates result.world_model_updates ∈
        applyResult result) ∧
    (result.tags ≠ [] → ExtractorEffect.logTags result.tags ∈ applyResult result) ∧
    ∀ ids tags, ExtractorEffect.archiveUpdateTags ids tags ∉ applyResult result := by
  obtain ⟨us, ts, anote⟩ := result
  refine ⟨?_, ?_, ?_⟩
  · intro hus
    have hlen : us.length > 0 := List.length_pos.mpr hus
    simp [applyResult, hlen]
  · intro hts
    have hlen : ts.length > 0 := List.length_pos.mpr hts
    by_cases hnote : anote = [] <;> by_cases h1 : us.length > 0 <;>
      simp [applyResult, hlen, hnote, h1]
  · intro ids tags
    by_cases h1 : us.length > 0 <;> by_cases hnote : anote = [] <;>
      by_cases h3 : ts.length > 0 <;> simp [applyResult, h1, hnote, h3]

/-- Witness for C8 (amended): a concrete result with one update and one tag;
the update-application effect is in the trace. -/
theorem extractor_applies_updates_logs_tags_witness :
    ExtractorEffect.applyWorldModelUpdates
        [⟨UpdateAction.add, String.toList "Identity", String.toList "Name",
          some (String.toList "A")⟩] ∈
      applyResult ⟨[⟨UpdateAction.add, String.toList "Identity",
        String.toList "Name", some (String.toList "A")⟩], [String.toList "t"], []⟩ :=
  (extractor_applies_updates_logs_tags
    ⟨[⟨UpdateAction.add, String.toList "Identity", String.toList "Name",
      some (String.toList "A")⟩], [String.toList "t"], []⟩).1 (by decide)

/-! ## SessionManager.read -/

lemma mapJsonParse_none (parseLine : List Char → Option SessionEntry)
    (ls : List (List Char)) (line : List Char) (hmem : line ∈ ls)
    (hfail : parseLine line = none) : mapJsonParse parseLine ls = none := by
  induction ls with
  | nil => simp at hmem
  | cons l ls ih =>
    rcases List.mem_cons.mp hmem with rfl | hmem'
    · simp [mapJsonParse, hfail]
    · simp only [mapJsonParse]
      cases parseLine l with
      | none => rfl
      | some e => rw [ih hmem']

/-- Counterexample for **C9**: a session file whose first line parses and
whose last line is a non-JSON fragment (the parse oracle models
`JSON.parse`, which throws on it).  `read` maps `JSON.parse` over *every*
line, so it throws (`none`) — the partial last line is not ignored and the
preceding valid record is not returned. -/
theorem sessionRead_partial_line_counterexample :
    smRead
        (fun l => if l = String.toList "good" then
          some (⟨String.toList "user", String.toList "hi", 1⟩ : SessionEntry) else none)
        (some (String.toList "good" ++ '\n' :: String.toList "bad")) = none ∧
    (fun l => if l = String.toList "good" then
        some (⟨String.toList "user", String.toList "hi", 1⟩ : SessionEntry) else none)
      (String.toList "good") =
      some ⟨String.toList "user", String.toList "hi", 1⟩ := by
  constructor
  · decide
  · decide

/-- **C9 (amended).** `read` maps `JSON.parse` over every line of the
trimmed session file; a missing file yields `[]`, but if any line of a
non-blank file fails to parse — in particular a partial (non-JSON) last
line — `read` fails as a whole instead of returning the preceding valid
records. -/
theorem sessionRead_line_failure (parseLine : List Char → Option SessionEntry) :
    smRead parseLine none = some [] ∧
    ∀ content line, jsTrim content ≠ [] → line ∈ jsSplit '\n' (jsTrim content) →
      parseLine line = none → smRead parseLine (some content) = none := by
  refine ⟨rfl, ?_⟩
  intro content line hne hmem hfail
  simp only [smRead, if_neg hne]
  exact mapJsonParse_none parseLine _ line hmem hfail

/-- Witness for C9 (amended): a concrete two-line file whose second line
fails to parse; `read` fails. -/
theorem sessionRead_line_failure_witness :
    smRead
        (fun l => if l = String.toList "good" then
          some (⟨String.toList "user", String.toList "hi", 1⟩ : SessionEntry) else none)
        (some (String.toList "good" ++ '\n' :: String.toList "oops")) = none :=
  (sessionRead_line_failure
      (fun l => if l = String.toList "good" then
        some (⟨String.toList "user", String.toList "hi", 1⟩ : SessionEntry) else none)).2
    (String.toList "good" ++ '\n' :: String.toList "oops") (String.toList "oops")
    (by decide) (by decide) (by decide)

end VamanAI
